import Mathlib

/-!
Verification development for the agisdk-js REAL benchmark core
(environment / action / harness loop).

The TypeScript sources are embedded shallowly:

* `parseValue`, `parseArgs`, `parseAction`, `executeAction` embed
  `src/REAL/browsergym/core/ActionExecutor.ts`;
* `activePageCheck`, `step`, `extractObservation` embed the page-tracking
  and step logic of `src/REAL/browsergym/core/BrowserEnv.ts`
  (pages are identified by numeric ids standing in for Playwright `Page`
  objects; a page is closed iff it is no longer in `context.pages()`,
  matching Playwright, so `openPages` both lists the context's pages and
  decides `isClosed`);
* `canonicalizeTaskName`, `runSingleTask`, `runTasks`, `runLoop` embed
  `src/REAL/harness.ts` (the browser, agent and task collaborators are
  oracles: an `EpisodeOracle` gives the outcome of `env.reset` and of each
  `agent.getAction`/`env.step` round, and the result cache is a function
  `String → Option TaskResult` standing for the results directory);
* `markFrame` / `preExtract` embed `preExtract`/`markFramesRecursive` of
  `src/REAL/env.ts` (frame trees are an inductive type; the per-frame
  `frame.evaluate` marking call is abstracted by a boolean outcome).

JavaScript `number` values appearing as integers are modelled as `Int`
(exact below 2^53, which covers every value exercised here); a float
literal argument is kept as its source token, since no verified property
depends on IEEE arithmetic.  JavaScript exceptions are modelled by
`Except`; an uncaught exception is an `Except.error` result.
-/

/-! ### JavaScript character classes and string primitives -/

deriving instance DecidableEq for Except

/-- The single-quote character. -/
def squote : Char := Char.ofNat 39

/-- The backslash character. -/
def bslash : Char := Char.ofNat 92

/-- JavaScript `\s` for the ASCII range (space, tab, newline, carriage
return, vertical tab, form feed). -/
def isJsSpace (c : Char) : Bool :=
  c = ' ' || c = '\t' || c = '\n' || c = '\r' || c = Char.ofNat 11 || c = Char.ofNat 12

/-- JavaScript `\w`: `[A-Za-z0-9_]`. -/
def isWordChar (c : Char) : Bool :=
  ('a' ≤ c && c ≤ 'z') || ('A' ≤ c && c ≤ 'Z') || ('0' ≤ c && c ≤ '9') || c = '_'

/-- Decimal digit. -/
def isDigitCh (c : Char) : Bool := '0' ≤ c && c ≤ '9'

/-- Characters not matched by an un-flagged JavaScript `.`
(newline, carriage return, line separator, paragraph separator). -/
def isJsLineTerm (c : Char) : Bool :=
  c = '\n' || c = '\r' || c = Char.ofNat 0x2028 || c = Char.ofNat 0x2029

/-- `String.prototype.trim` on a character list. -/
def trimL (l : List Char) : List Char :=
  ((l.dropWhile isJsSpace).reverse.dropWhile isJsSpace).reverse

/-- Numeric value of a digit list (most significant first). -/
def digitsVal (l : List Char) : Nat :=
  l.foldl (fun acc c => acc * 10 + (c.toNat - '0'.toNat)) 0

/-! ### `parseValue` (ActionExecutor.ts lines 62-93) -/

/-- A parsed action-argument value.  JavaScript has a single string type,
so both quoted strings and the raw-token fallback produce `.str`; a float
is kept as its source token (its IEEE value is never needed here). -/
inductive JValue where
  | str (s : String)
  | int (n : Int)
  | float (tok : String)
  | bool (b : Bool)
  | null
deriving DecidableEq, Repr

/-- Test for the regex `^-?\d+$`. -/
def isIntTok (l : List Char) : Bool :=
  match l with
  | '-' :: rest => !rest.isEmpty && rest.all isDigitCh
  | _ => !l.isEmpty && l.all isDigitCh

/-- Value of a token matching `^-?\d+$` (JavaScript `parseInt(v, 10)`,
exact below 2^53). -/
def intTokVal (l : List Char) : Int :=
  match l with
  | '-' :: rest => -(digitsVal rest : Int)
  | _ => (digitsVal l : Int)

/-- Test for the regex `^-?\d+\.\d+$`. -/
def isFloatTok (l : List Char) : Bool :=
  let core := fun (m : List Char) =>
    let d1 := m.takeWhile isDigitCh
    let rest := m.drop d1.length
    !d1.isEmpty &&
      (match rest with
       | '.' :: d2 => !d2.isEmpty && d2.all isDigitCh
       | _ => false)
  match l with
  | '-' :: rest => core rest
  | _ => core l

/-- One pass of JavaScript `value.replace(/\\q/g, q)`: each
backslash-`q` pair becomes `q`, scanning left to right. -/
def replaceEsc (q : Char) : List Char → List Char
  | [] => []
  | [c] => [c]
  | c :: d :: rest =>
    if c = bslash && d = q then d :: replaceEsc q rest
    else c :: replaceEsc q (d :: rest)

/-- `slice(1, -1)` followed by unescaping `\"` then `\'`
(ActionExecutor.ts line 67). -/
def unquoteTok (l : List Char) : List Char :=
  replaceEsc squote (replaceEsc '"' ((l.drop 1).dropLast))

/-- Is the token quoted in the sense of ActionExecutor.ts line 66:
it starts and ends with `"`, or starts and ends with `'`?  (A single
quote character counts, as with JavaScript `startsWith`/`endsWith`.) -/
def isQuotedTok (l : List Char) : Bool :=
  (l.head? = some '"' && l.getLast? = some '"') ||
  (l.head? = some squote && l.getLast? = some squote)

/-- `parseValue` of ActionExecutor.ts: coerce one argument token. -/
def parseValue (value : String) : JValue :=
  let v := trimL value.data
  if isQuotedTok v then .str ⟨unquoteTok v⟩
  else if isIntTok v then .int (intTokVal v)
  else if isFloatTok v then .float ⟨v⟩
  else if v = "True".data || v = "true".data then .bool true
  else if v = "False".data || v = "false".data then .bool false
  else if v = "None".data || v = "null".data then .null
  else .str ⟨v⟩

/-! ### `parseArgs` (ActionExecutor.ts lines 10-57) -/

/-- The character-by-character scanning loop of `parseArgs`.  `cur` is the
`current` accumulator, `depth` the bracket depth (an `Int`: unmatched
closers drive it negative, as in the source), `inStr`/`strCh` the
quoted-string state, and `prev` the previously scanned character
(`argsString[i-1]`, used for the backslash-escape test). -/
def parseArgsAux : List Char → List Char → Int → Bool → Char → Option Char → List JValue
  | [], cur, _, _, _, _ =>
    if trimL cur ≠ [] then [parseValue ⟨trimL cur⟩] else []
  | c :: rest, cur, depth, inStr, strCh, prev =>
    if inStr then
      let cur' := cur ++ [c]
      if c = strCh && prev ≠ some bslash then
        parseArgsAux rest cur' depth false strCh (some c)
      else
        parseArgsAux rest cur' depth true strCh (some c)
    else if c = '"' || c = squote then
      parseArgsAux rest (cur ++ [c]) depth true c (some c)
    else if c = '(' || c = '[' || c = '{' then
      parseArgsAux rest (cur ++ [c]) (depth + 1) inStr strCh (some c)
    else if c = ')' || c = ']' || c = '}' then
      parseArgsAux rest (cur ++ [c]) (depth - 1) inStr strCh (some c)
    else if c = ',' && depth = 0 then
      parseValue ⟨trimL cur⟩ :: parseArgsAux rest [] depth inStr strCh (some c)
    else
      parseArgsAux rest (cur ++ [c]) depth inStr strCh (some c)

/-- `parseArgs` of ActionExecutor.ts: split an argument list at top-level
commas and coerce each token. -/
def parseArgs (argsString : String) : List JValue :=
  if trimL argsString.data = [] then []
  else parseArgsAux argsString.data [] 0 false ' ' none

/-! ### `parseAction` (ActionExecutor.ts lines 98-116) -/

/-- Strip one layer of fenced code-block decoration, as in
`cleaned.replace(/^```[\w]*\n?/, '').replace(/\n?```$/, '').trim()`
(only applied when the trimmed action starts with three backticks). -/
def stripFence (cleaned : List Char) : List Char :=
  let ticks := [Char.ofNat 96, Char.ofNat 96, Char.ofNat 96]
  if ticks.isPrefixOf cleaned then
    let afterWord := (cleaned.drop 3).dropWhile isWordChar
    let afterStart := match afterWord with
      | '\n' :: r => r
      | r => r
    let rev := afterStart.reverse
    let rev2 :=
      if ticks.isPrefixOf rev then
        match rev.drop 3 with
        | '\n' :: r2 => r2
        | r2 => r2
      else rev
    trimL rev2.reverse
  else cleaned

/-- Match the anchored regex `^(\w+)\s*\((.*)\)\s*$`: a maximal word-char
name, optional whitespace, an opening paren, a body that may not contain a
line terminator (unflagged `.`), the last closing paren followed only by
whitespace. -/
def matchCall (cleaned : List Char) : Option (List Char × List Char) :=
  let name := cleaned.takeWhile isWordChar
  if name.isEmpty then none
  else
    let rest1 := (cleaned.drop name.length).dropWhile isJsSpace
    if rest1.head? = some '(' then
      let body1 := rest1.tail.reverse.dropWhile isJsSpace
      if body1.head? = some ')' then
        let body := body1.tail.reverse
        if body.any isJsLineTerm then none else some (name, body)
      else none
    else none

/-- `parseAction` of ActionExecutor.ts: trim, strip an optional code
fence, match the function-call shape, split the arguments.  A string not
matching the shape is a parse error. -/
def parseAction (actionString : String) : Except String (String × List JValue) :=
  match matchCall (stripFence (trimL actionString.data)) with
  | none => .error ("Invalid action format: " ++ actionString)
  | some (name, argsStr) => .ok (⟨name⟩, parseArgs ⟨argsStr⟩)

/-! ### Scanner-level predicates (used to state the claim-C4 guarantees)

These describe, over the same alphabet the scanner reads, when a span of
characters is consumed without leaving its syntactic context: a quoted
span that never closes its string (every embedded quote is
backslash-escaped, exactly the `argsString[i-1] !== '\\'` test), and a
quote-free span whose bracket depth never lets a comma surface at
depth 0. -/

/-- Does scanning `s` in string mode with quote `q`, the previous
character being `prev`, keep the string open to the end?  A character
closes the string exactly when it equals `q` and the previous character
is not a backslash (ActionExecutor.ts line 44). -/
def staysOpen (q : Char) : Char → List Char → Bool
  | _, [] => true
  | prev, c :: rest => (!(c = q && prev ≠ bslash)) && staysOpen q c rest

/-- The last character of `s`, or `d` when `s` is empty (the character
the scanner sees as `argsString[i-1]` after consuming `s`). -/
def lastD (s : List Char) (d : Char) : Char := (s.getLast?).getD d

/-- The `prev` value after scanning `t` starting from `prev`. -/
def prevAfter (t : List Char) (prev : Option Char) : Option Char :=
  match t.getLast? with
  | some c => some c
  | none => prev

/-- The unescaping `parseValue` applies to a quoted token's content:
`\"` then `\'` replaced (ActionExecutor.ts line 67). -/
def unescTok (s : List Char) : List Char :=
  replaceEsc squote (replaceEsc '"' s)

/-- Track the scanner's bracket depth through a quote-free span: `none`
when the span contains a quote character or surfaces a comma at depth 0
(i.e. the scanner would change mode or split there), otherwise the final
depth. -/
def scanTok (d : Int) : List Char → Option Int
  | [] => some d
  | c :: rest =>
    if c = '"' || c = squote then none
    else if c = '(' || c = '[' || c = '{' then scanTok (d + 1) rest
    else if c = ')' || c = ']' || c = '}' then scanTok (d - 1) rest
    else if c = ',' && d = 0 then none
    else scanTok d rest

/-! ### `executeAction` (ActionExecutor.ts lines 121-218) -/

/-- A thrown JavaScript error: constructor name and message.  `step`
formats `lastActionError` as `name ++ ": " ++ msg`
(BrowserEnv.ts line 202). -/
structure JsError where
  name : String
  msg : String
deriving DecidableEq, Repr

/-- One chat transcript entry (role and text). -/
structure ChatMessage where
  role : String
  message : String
deriving DecidableEq, Repr

/-- JavaScript `String(v)` on a parsed argument value. -/
def jsToString : JValue → String
  | .str s => s
  | .int n => toString n
  | .float tok => tok
  | .bool true => "true"
  | .bool false => "false"
  | .null => "null"

/-- The operation names `executeAction`'s switch recognises. -/
def knownActionNames : List String :=
  ["goto", "go_back", "go_forward", "click", "dblclick", "fill", "press",
   "scroll", "hover", "select_option", "send_msg_to_user",
   "report_infeasible", "noop"]

/-- `executeAction` of ActionExecutor.ts.  The browser round trip of each
recognised operation is abstracted by the oracle `orc` (applied to the
operation name); on success the returned list holds the chat messages the
operation itself appends (`send_msg_to_user` / `report_infeasible` call
back into the environment's exposed functions, BrowserEnv.ts lines
106-111).  Arity checks and the unknown-name rejection are the source's
own throws. -/
def executeAction (orc : String → Except JsError Unit) (action : String) :
    Except JsError (List ChatMessage) :=
  match parseAction action with
  | .error m => .error ⟨"Error", m⟩
  | .ok (name, args) =>
    if name = "goto" then
      if args.length < 1 then .error ⟨"Error", "goto requires 1 argument"⟩
      else (orc name).map fun _ => []
    else if name = "go_back" then (orc name).map fun _ => []
    else if name = "go_forward" then (orc name).map fun _ => []
    else if name = "click" then
      if args.length < 1 then .error ⟨"Error", "click requires at least 1 argument"⟩
      else (orc name).map fun _ => []
    else if name = "dblclick" then
      if args.length < 1 then .error ⟨"Error", "dblclick requires at least 1 argument"⟩
      else (orc name).map fun _ => []
    else if name = "fill" then
      if args.length < 2 then .error ⟨"Error", "fill requires 2 arguments"⟩
      else (orc name).map fun _ => []
    else if name = "press" then
      if args.length < 2 then .error ⟨"Error", "press requires 2 arguments"⟩
      else (orc name).map fun _ => []
    else if name = "scroll" then
      if args.length < 2 then .error ⟨"Error", "scroll requires 2 arguments"⟩
      else (orc name).map fun _ => []
    else if name = "hover" then
      if args.length < 1 then .error ⟨"Error", "hover requires 1 argument"⟩
      else (orc name).map fun _ => []
    else if name = "select_option" then
      if args.length < 2 then .error ⟨"Error", "select_option requires 2 arguments"⟩
      else (orc name).map fun _ => []
    else if name = "send_msg_to_user" then
      if args.length < 1 then .error ⟨"Error", "send_msg_to_user requires 1 argument"⟩
      else (orc name).map fun _ => [⟨"assistant", jsToString (args.headD .null)⟩]
    else if name = "report_infeasible" then
      if args.length < 1 then .error ⟨"Error", "report_infeasible requires 1 argument"⟩
      else (orc name).map fun _ => [⟨"infeasible", jsToString (args.headD .null)⟩]
    else if name = "noop" then (orc name).map fun _ => []
    else .error ⟨"Error", "Unknown action: " ++ name⟩

/-! ### BrowserEnv state and `activePageCheck` (BrowserEnv.ts 365-398) -/

/-- The mutable fields of `BrowserEnv` that `step` touches.  Pages are
numeric ids; `openPages` is `context.pages()` in order (a page is closed
iff it has been removed from it, as in Playwright); `history` is the
insertion-ordered key list of `pageHistory` (most recently activated
last); `nextId` supplies the id of the next `context.newPage()`. -/
structure EnvState where
  page : Option Nat
  hasTask : Bool
  chat : List ChatMessage
  lastAction : String
  lastActionError : String
  openPages : List Nat
  history : List Nat
  nextId : Nat
deriving DecidableEq, Repr

/-- `Map.set` on the insertion-ordered key list: an existing key keeps
its position, a new key is appended. -/
def histSet (hist : List Nat) (p : Nat) : List Nat :=
  if p ∈ hist then hist else hist ++ [p]

/-- Most recent entry of the history key list
(`historyPages[historyPages.length - 1]`). -/
def histLast (l : List Nat) : Nat := (l.getLast?).getD 0

/-- The `while` loop of `activePageCheck` after its first iteration has
deleted the closed active page: repeatedly take the most recent history
entry; if it is closed, delete it and continue; if the history is
exhausted, fall back to the first open page and record it in the
history. -/
def apcPop (pages : List Nat) (hist : List Nat) : Nat × List Nat :=
  if hh : hist = [] then
    let p := pages.headD 0
    (p, histSet hist p)
  else
    let p := histLast hist
    if p ∈ pages then (p, hist)
    else apcPop pages (hist.erase p)
termination_by hist.length
decreasing_by
  have hmem : histLast hist ∈ hist := by
    have h1 := List.getLast?_eq_getLast_of_ne_nil hh
    simp only [histLast, h1, Option.getD_some]
    exact List.getLast_mem hh
  have h2 := List.length_erase_of_mem hmem
  have h3 := List.length_pos.mpr hh
  omega

/-- `activePageCheck` of BrowserEnv.ts: if no page is open, open a fresh
blank one; otherwise, while the active page is closed, fall back through
the history of previously active pages (most recent first) and, with the
history exhausted, to the first open page.  The final `isClosed` throw is
unreachable: the loop only stops on an open page. -/
def activePageCheck (s : EnvState) : EnvState :=
  if s.openPages = [] then
    let p := s.nextId
    { s with openPages := [p], page := some p,
             history := histSet s.history p, nextId := p + 1 }
  else
    match s.page with
    | none =>
      let p := s.openPages.headD 0
      { s with page := some p, history := histSet s.history p }
    | some cur =>
      if cur ∈ s.openPages then s
      else
        let r := apcPop s.openPages (s.history.erase cur)
        { s with page := some r.1, history := r.2 }

/-! ### Observation extraction and `step` (BrowserEnv.ts 179-252) -/

/-- The observation fields relevant to the verified claims, as built by
`extractObservation` (Observation.ts lines 161-178); page ids stand in
for their URLs in `open_pages_urls`.  Goal, screenshot, DOM and
accessibility payloads are captured from collaborators out of scope
here. -/
structure Observation where
  chat_messages : List ChatMessage
  open_pages_urls : List Nat
  active_page_index : Int
  last_action : String
  last_action_error : String
deriving DecidableEq, Repr

/-- `pages.indexOf(page)`: index of the active page, `-1` if absent. -/
def jsIndexOf (l : List Nat) (p : Option Nat) : Int :=
  match p with
  | none => -1
  | some x => ((l.findIdx? (· = x)).map Int.ofNat).getD (-1)

/-- The observation `getObservation` extracts from the current state. -/
def extractObservation (s : EnvState) : Observation :=
  { chat_messages := s.chat
    open_pages_urls := s.openPages
    active_page_index := jsIndexOf s.openPages s.page
    last_action := s.lastAction
    last_action_error := s.lastActionError }

/-- Outcome of `task.validate(page, chatMessages)`: reward, done flag and
optional user message (empty string for a falsy message). -/
structure ValidateOut where
  reward : Int
  done : Bool
  userMessage : String
deriving DecidableEq, Repr

/-- `BrowserEnv.step`.  Returns `[obs, reward, terminated, truncated,
info]` as the tuple `(state', obs, reward, terminated, truncated)`, or
`.error` for an exception that propagates to the caller.  The
action-execution `try`/`catch` records a failure in `lastActionError`;
the `reportInfeasible` call inside that catch is guarded by
`actionExecuted`, which is still `false` there, so a failed action never
appends to the chat.  `waitDOMLoaded` swallows its timeouts and changes
no modelled state. -/
def step (orc : String → Except JsError Unit) (v : ValidateOut)
    (s : EnvState) (action : String) :
    Except JsError (EnvState × Observation × Int × Bool × Bool) :=
  if s.page = none || s.hasTask = false then
    .error ⟨"Error", "Environment not initialized. Call reset() first."⟩
  else
    let s1 := { s with lastAction := action, lastActionError := "" }
    let s2 := match executeAction orc action with
      | .ok delta => { s1 with chat := s1.chat ++ delta }
      | .error e => { s1 with lastActionError := e.name ++ ": " ++ e.msg }
    let s3 := activePageCheck s2
    let s4 := if v.userMessage ≠ "" then
        { s3 with chat := s3.chat ++ [⟨"user", v.userMessage⟩] }
      else s3
    .ok (s4, extractObservation s4, v.reward, v.done, false)

/-! ### Harness: task-name canonicalization (harness.ts 133-156) -/

/-- JavaScript `s.split(sep, 2)[1]`: the segment between the first and
second occurrence of `sep` (the limit-2 split truncates, it does not keep
the remainder as Python would). -/
def segAfterFirst (sep : Char) (l : List Char) : List Char :=
  (((l.dropWhile (· ≠ sep)).drop 1).takeWhile (· ≠ sep))

/-- JavaScript `s.split(sep, 2)[0]`: the text before the first `sep`. -/
def segBeforeFirst (sep : Char) (l : List Char) : List Char :=
  l.takeWhile (· ≠ sep)

/-- `if (cleaned.startsWith('webclones.')) cleaned = cleaned.split('.', 2)[1]!`. -/
def stripWebclones (cleaned : List Char) : List Char :=
  if "webclones.".data.isPrefixOf cleaned then segAfterFirst '.' cleaned else cleaned

/-- `if (cleaned.startsWith('browsergym/')) cleaned = cleaned.split('/', 2)[1]!`. -/
def stripBrowsergym (c1 : List Char) : List Char :=
  if "browsergym/".data.isPrefixOf c1 then segAfterFirst '/' c1 else c1

/-- `Harness.canonicalizeTaskName`: trim, reject empty, strip a legacy
`webclones.` or `browsergym/` prefix via `split(sep, 2)[1]`, then either
keep the first two dot-separated segments (a reference already holding a
dot) or prepend the configured default version. -/
def canonicalizeTaskName (defaultVersion : String) (taskName : String) :
    Except String String :=
  if trimL taskName.data = [] then .error "Task name cannot be empty"
  else if '.' ∈ stripBrowsergym (stripWebclones (trimL taskName.data)) then
    .ok ⟨segBeforeFirst '.' (stripBrowsergym (stripWebclones (trimL taskName.data)))
         ++ '.' :: segAfterFirst '.' (stripBrowsergym (stripWebclones (trimL taskName.data)))⟩
  else
    .ok ⟨defaultVersion.data ++ '.' :: stripBrowsergym (stripWebclones (trimL taskName.data))⟩

/-! ### Harness: cache and episode loop (harness.ts 161-323) -/

/-- A persisted task result (harness.ts lines 262-270).  `exp_dir` is the
constant results directory and `stack_trace` mirrors `err_msg`; both are
omitted. -/
structure TaskResult where
  cum_reward : Int
  elapsed_time : Int
  num_steps : Nat
  success : Bool
  err_msg : Option String
deriving DecidableEq, Repr

/-- The harness configuration flags `runSingleTask` consults. -/
structure HarnessCfg where
  useCache : Bool
  cacheOnly : Bool
  forceRefresh : Bool
  maxSteps : Nat
deriving DecidableEq, Repr

/-- Oracle for one task's episode: the outcome of `env.reset` (an
observation abstracted to its `elapsed_time`) and, for each loop
iteration `i`, the outcome of `agent.getAction` plus `env.step`
(observation's elapsed time, reward, terminated, truncated) — or the
error either of them throws. -/
structure EpisodeOracle where
  resetOut : Except String Int
  stepOut : Nat → Except String (Int × Int × Bool × Bool)

/-- The harness agent/environment loop (harness.ts lines 234-259): run
while not terminated/truncated and under the step budget; a step error is
caught, recorded, and breaks the loop.  Returns (last observation's
elapsed time, cumulative reward, step count, caught error). -/
def runLoop (stepOut : Nat → Except String (Int × Int × Bool × Bool)) :
    Nat → Nat → Int → Int → Int × Int × Nat × Option String
  | 0, i, obs, cum => (obs, cum, i, none)
  | fuel + 1, i, obs, cum =>
    match stepOut i with
    | .error e => (obs, cum, i, some e)
    | .ok (obs', r, term, trunc) =>
      if term || trunc then (obs', r, i + 1, none)
      else runLoop stepOut fuel (i + 1) obs' r

/-- Reset the environment and drive the loop, building the `TaskResult`
(harness.ts lines 222-270).  An error thrown by `env.reset` is not
caught: it propagates (after the `finally` cleanup). -/
def runEpisode (cfg : HarnessCfg) (orc : EpisodeOracle) :
    Except String TaskResult :=
  match orc.resetOut with
  | .error e => .error e
  | .ok obs0 =>
    let r := runLoop orc.stepOut cfg.maxSteps 0 obs0 0
    .ok { cum_reward := r.2.1, elapsed_time := r.1, num_steps := r.2.2.1,
          success := r.2.1 = 1, err_msg := r.2.2.2 }

/-- `Harness.runSingleTask`: consult the cache (only when caching is on
and no refresh is forced), fail fast in cache-only mode, otherwise run
the episode and persist the result when caching is on.  Returns the
result together with the updated cache; a thrown error is `.error`. -/
def runSingleTask (cfg : HarnessCfg) (cache : String → Option TaskResult)
    (orc : EpisodeOracle) (taskName : String) :
    Except String (TaskResult × (String → Option TaskResult)) :=
  match (if cfg.useCache && !cfg.forceRefresh then cache taskName else none) with
  | some r => .ok (r, cache)
  | none =>
    if cfg.cacheOnly then
      .error ("No cached result found for " ++ taskName ++ " and cacheOnly is enabled")
    else
      match runEpisode cfg orc with
      | .error e => .error e
      | .ok result =>
        if cfg.useCache then
          .ok (result, fun t => if t = taskName then some result else cache t)
        else
          .ok (result, cache)

/-- `Harness.runTasks`, sequential path (harness.ts lines 169-175; the
`numWorkers > 1` path currently falls back to the same sequential loop,
lines 290-299).  Each task's `runSingleTask` is awaited with no
surrounding `try`/`catch`, so an error it throws rejects the whole batch
and the accumulated results are lost. -/
def runTasks (cfg : HarnessCfg) (cache : String → Option TaskResult)
    (orcs : String → EpisodeOracle) :
    List String → Except String (List (String × TaskResult) × (String → Option TaskResult))
  | [] => .ok ([], cache)
  | t :: ts =>
    match runSingleTask cfg cache (orcs t) t with
    | .error e => .error e
    | .ok (r, cache') =>
      match runTasks cfg cache' orcs ts with
      | .error e => .error e
      | .ok (rs, cache'') => .ok ((t, r) :: rs, cache'')

/-! ### Frame marking, `preExtract` (env.ts 240-294) -/

/-- Attributes of a child `iframe` element as its parent sees them:
whether the frame is detached, whether `frameElement().contentFrame()`
round-trips to the same frame, the `sandbox` attribute, and the element
identifier (`bid`) attribute left by the parent's marking pass. -/
structure ChildMeta where
  detached : Bool
  contentOk : Bool
  sandbox : Option String
  bid : Option String
deriving DecidableEq, Repr

/-- A frame tree.  `evalOk` abstracts whether the in-frame
`frame.evaluate(jsFrameMarkElements, …)` call succeeds. -/
inductive Frame where
  | node (evalOk : Bool) (children : List (ChildMeta × Frame))
deriving Repr

/-- Output of a marking walk: the warnings printed with `console.warn`
and the frame identifiers whose marking script ran. -/
structure MarkOut where
  warnings : List String
  marked : List String
deriving DecidableEq, Repr

/-- The regex `^[a-z][a-zA-Z]*$` used to validate a frame identifier. -/
def validFrameBid (s : String) : Bool :=
  match s.data with
  | [] => false
  | c :: r => ('a' ≤ c && c ≤ 'z') && r.all (fun d => ('a' ≤ d && d ≤ 'z') || ('A' ≤ d && d ≤ 'Z'))

/-- Does a `sandbox` attribute block script execution?  JavaScript
`sandboxAttr !== null && !sandboxAttr.split(/\s+/).includes("allow-scripts")`. -/
def sandboxBlocks (sandbox : Option String) : Bool :=
  match sandbox with
  | none => false
  | some attr =>
    !(((attr.data.splitOnP (fun c => isJsSpace c)).map (fun w => (⟨w⟩ : String))).contains "allow-scripts")

/-- Accumulate two marking outputs in document order. -/
def markAppend (a b : MarkOut) : MarkOut :=
  ⟨a.warnings ++ b.warnings, a.marked ++ b.marked⟩

/-- `markFramesRecursive` of env.ts.  The `frameBid` regex violation is a
throw; the in-frame evaluate failure is caught and logged (lines
257-259); every failure while processing one child — including the
`MarkingError` deliberately thrown when the child lacks a `bid` and any
error propagating out of the recursive call — is caught by the
per-child `catch` (lines 287-289) and logged as a warning, after which
the walk continues with the next child. -/
def markFrame (f : Frame) (frameBid : String) : Except String MarkOut :=
  match f with
  | .node evalOk children =>
    if frameBid ≠ "" && !validFrameBid frameBid then
      .error ("Invalid frameBid: " ++ frameBid)
    else
      let self : MarkOut :=
        if evalOk then ⟨[], [frameBid]⟩ else ⟨["Error marking frame"], []⟩
      .ok (markAppend self (markChildren children))
where
  /-- Process the children of one frame in order. -/
  markChildren : List (ChildMeta × Frame) → MarkOut
    | [] => ⟨[], []⟩
    | (m, sub) :: rest =>
      let here : MarkOut :=
        if m.detached then ⟨[], []⟩
        else if !m.contentOk then
          ⟨["Skipping frame for marking, seems problematic."], []⟩
        else if sandboxBlocks m.sandbox then ⟨[], []⟩
        else
          match m.bid with
          | none =>
            ⟨["Error processing child frame: Error: Cannot mark a child frame without a bid."], []⟩
          | some b =>
            match markFrame sub b with
            | .error e => ⟨["Error processing child frame: Error: " ++ e], []⟩
            | .ok out => out
      markAppend here (markChildren rest)

/-- `preExtract` of env.ts: mark the whole frame tree starting from the
main frame with the empty identifier. -/
def preExtract (f : Frame) : Except String MarkOut := markFrame f ""

/-! ### Specification-side definition for the coercion order (claim C5) -/

/-- The argument-coercion cascade as the specification words it: quoted
string (unescaped), then integer, then float, then boolean literal
(`true`/`false`/`True`/`False`), then null literal (`null`/`None`), and
otherwise the raw token unchanged; an earlier rule wins over a later
one. -/
def parseValueSpec (v : List Char) : JValue :=
  if isQuotedTok v then .str ⟨unquoteTok v⟩
  else if isIntTok v then .int (intTokVal v)
  else if isFloatTok v then .float ⟨v⟩
  else if v = "True".data || v = "true".data then .bool true
  else if v = "False".data || v = "false".data then .bool false
  else if v = "None".data || v = "null".data then .null
  else .str ⟨v⟩

/-! ### Fallback characterization helpers (claim C3) -/

/-- The most recently activated entry of a history list that is still
open, if any. -/
def lastOpen (pages hist : List Nat) : Option Nat :=
  (hist.filter (fun p => decide (p ∈ pages))).getLast?

/-- Where `activePageCheck`'s fallback lands: the most recent still-open
history entry, or the first open page when the history holds none. -/
def fallbackPage (pages hist : List Nat) : Nat :=
  (lastOpen pages hist).getD (pages.headD 0)

/-! ## Theorems -/

/-! ### Lemmas about `activePageCheck` and `step` -/

/-- `activePageCheck` only touches the page-tracking fields. -/
theorem activePageCheck_preserves (s : EnvState) :
    (activePageCheck s).chat = s.chat ∧
    (activePageCheck s).lastAction = s.lastAction ∧
    (activePageCheck s).lastActionError = s.lastActionError ∧
    (activePageCheck s).hasTask = s.hasTask := by
  unfold activePageCheck
  split
  · simp
  · split
    · simp
    · split <;> simp

/-- An action name outside the executor's switch yields the
`Unknown action` error. -/
theorem executeAction_unknown (orc : String → Except JsError Unit)
    (action : String) (name : String) (args : List JValue)
    (hp : parseAction action = .ok (name, args))
    (hk : name ∉ knownActionNames) :
    executeAction orc action = .error ⟨"Error", "Unknown action: " ++ name⟩ := by
  simp only [knownActionNames, List.mem_cons, List.not_mem_nil, or_false, not_or] at hk
  obtain ⟨h1, h2, h3, h4, h5, h6, h7, h8, h9, h10, h11, h12, h13⟩ := hk
  unfold executeAction
  rw [hp]
  simp [h1, h2, h3, h4, h5, h6, h7, h8, h9, h10, h11, h12, h13]

/-! ### Claim C9 -/

/-- C9: calling `BrowserEnv.step` before any successful `reset` (no page
or no task) throws the precondition error
`Environment not initialized. Call reset() first.` — which names the
missing initialization and instructs to call `reset()` — and performs no
action (the call ends in that error, producing no successor state). -/
theorem step_before_reset (orc : String → Except JsError Unit) (v : ValidateOut)
    (s : EnvState) (action : String) (h : s.page = none ∨ s.hasTask = false) :
    step orc v s action =
      .error ⟨"Error", "Environment not initialized. Call reset() first."⟩ := by
  unfold step
  rcases h with h | h <;> simp [h]

/-- Witness for C9 at a concrete uninitialized state. -/
theorem step_before_reset_witness :
    step (fun _ => .ok ()) ⟨0, false, ""⟩ ⟨none, false, [], "", "", [], [], 0⟩ "noop()" =
      .error ⟨"Error", "Environment not initialized. Call reset() first."⟩ :=
  step_before_reset _ _ _ _ (Or.inl rfl)

/-! ### Claim C1 -/

/-- The state `step` ends in when `executeAction` throws `e`: the action
and the formatted error are recorded, the active page re-resolved, and
the validator's message (if any) appended. -/
def stepErrState (v : ValidateOut) (s : EnvState) (action : String) (e : JsError) : EnvState :=
  let s3 := activePageCheck
    { s with lastAction := action, lastActionError := e.name ++ ": " ++ e.msg }
  if v.userMessage ≠ "" then
    { s3 with chat := s3.chat ++ [⟨"user", v.userMessage⟩] }
  else s3

/-- On an initialized environment, a throwing action is caught at the
step boundary: `step` still returns normally, with the state
`stepErrState` describes. -/
theorem step_exec_error (orc : String → Except JsError Unit) (v : ValidateOut)
    (s : EnvState) (action : String) (e : JsError) (p : Nat)
    (hpage : s.page = some p) (htask : s.hasTask = true)
    (herr : executeAction orc action = .error e) :
    step orc v s action =
      .ok (stepErrState v s action e, extractObservation (stepErrState v s action e),
           v.reward, v.done, false) := by
  unfold step stepErrState
  rw [herr]
  simp [hpage, htask]

/-- `stepErrState` records the formatted error. -/
theorem stepErrState_lastActionError (v : ValidateOut) (s : EnvState)
    (action : String) (e : JsError) :
    (stepErrState v s action e).lastActionError = e.name ++ ": " ++ e.msg := by
  unfold stepErrState
  split <;> simp [(activePageCheck_preserves _).2.2.1]

/-- `stepErrState` records the requested action. -/
theorem stepErrState_lastAction (v : ValidateOut) (s : EnvState)
    (action : String) (e : JsError) :
    (stepErrState v s action e).lastAction = action := by
  unfold stepErrState
  split <;> simp [(activePageCheck_preserves _).2.1]

/-- After a throwing action the chat gains only the validator's message:
nothing is appended by the action-execution stage. -/
theorem stepErrState_chat (v : ValidateOut) (s : EnvState)
    (action : String) (e : JsError) :
    (stepErrState v s action e).chat =
      s.chat ++ (if v.userMessage ≠ "" then [⟨"user", v.userMessage⟩] else []) := by
  unfold stepErrState
  split <;> simp [(activePageCheck_preserves _).1]

/-- A nonempty formatted unknown-action error. -/
theorem unknown_action_msg_ne_empty (nm : String) :
    "Error" ++ ": " ++ ("Unknown action: " ++ nm) ≠ "" := by
  intro h
  have hlen := congrArg String.length h
  simp only [String.length_append] at hlen
  have h1 : ("Error" : String).length = 5 := rfl
  have h2 : (": " : String).length = 2 := rfl
  have h3 : ("Unknown action: " : String).length = 16 := rfl
  have h4 : ("" : String).length = 0 := rfl
  omega

/-- C1: on an initialized environment, `step` with an action whose name
is not one of the executor's operations does not propagate an exception:
it returns normally, the observation's `last_action_error` is the
non-empty `Unknown action` record, and the returned `terminated` flag is
exactly the task validator's `done` (the error alone never terminates). -/
theorem step_unknown_action (orc : String → Except JsError Unit) (v : ValidateOut)
    (s : EnvState) (action name : String) (args : List JValue) (p : Nat)
    (hpage : s.page = some p) (htask : s.hasTask = true)
    (hparse : parseAction action = .ok (name, args))
    (hunk : name ∉ knownActionNames) :
    ∃ s' obs, step orc v s action = .ok (s', obs, v.reward, v.done, false) ∧
      obs.last_action_error = "Error" ++ ": " ++ ("Unknown action: " ++ name) ∧
      obs.last_action_error ≠ "" := by
  have hexec := executeAction_unknown orc action name args hparse hunk
  refine ⟨_, _, step_exec_error orc v s action _ p hpage htask hexec, ?_, ?_⟩
  · simp [extractObservation, stepErrState_lastActionError]
  · simp only [extractObservation, stepErrState_lastActionError]
    exact unknown_action_msg_ne_empty name

/-- Witness for C1: an initialized one-page environment stepping the
unrecognised action `frobnicate()`. -/
theorem step_unknown_action_witness :
    ∃ s' obs,
      step (fun _ => .ok ()) ⟨0, false, ""⟩ ⟨some 1, true, [], "", "", [1], [1], 2⟩
          "frobnicate()" = .ok (s', obs, (0 : Int), false, false) ∧
      obs.last_action_error = "Error" ++ ": " ++ ("Unknown action: " ++ "frobnicate") ∧
      obs.last_action_error ≠ "" :=
  step_unknown_action (fun _ => .ok ()) ⟨0, false, ""⟩
    ⟨some 1, true, [], "", "", [1], [1], 2⟩ "frobnicate()" "frobnicate" [] 1
    rfl rfl rfl (by decide)

/-! ### Claim C10 -/

/-- C10: whenever an action's execution throws (parse error or execution
error), `step` leaves the chat transcript untouched by the
action-execution stage — only the validator's message is appended, never
an assistant or infeasible message — while `last_action` still records
the requested action string, `last_action_error` records the formatted
error, and the step proceeds to validation and observation extraction
(it returns normally with the validator's reward and done flag). -/
theorem step_failed_action_transcript (orc : String → Except JsError Unit)
    (v : ValidateOut) (s : EnvState) (action : String) (e : JsError) (p : Nat)
    (hpage : s.page = some p) (htask : s.hasTask = true)
    (herr : executeAction orc action = .error e) :
    ∃ s', step orc v s action =
        .ok (s', extractObservation s', v.reward, v.done, false) ∧
      s'.chat = s.chat ++ (if v.userMessage ≠ "" then [⟨"user", v.userMessage⟩] else []) ∧
      s'.lastAction = action ∧
      s'.lastActionError = e.name ++ ": " ++ e.msg ∧
      (extractObservation s').chat_messages = s'.chat ∧
      (extractObservation s').last_action = action ∧
      (extractObservation s').last_action_error = e.name ++ ": " ++ e.msg := by
  refine ⟨stepErrState v s action e,
    step_exec_error orc v s action e p hpage htask herr,
    stepErrState_chat v s action e,
    stepErrState_lastAction v s action e,
    stepErrState_lastActionError v s action e, rfl, ?_, ?_⟩
  · simp only [extractObservation, stepErrState_lastAction]
  · simp only [extractObservation, stepErrState_lastActionError]

/-- Witness for C10: an initialized environment stepping the malformed
action `notvalid` (a parse error). -/
theorem step_failed_action_transcript_witness :
    ∃ s', step (fun _ => .ok ()) ⟨0, false, "done?"⟩
        ⟨some 1, true, [⟨"assistant", "hi"⟩], "", "", [1], [1], 2⟩ "notvalid" =
        .ok (s', extractObservation s', (0 : Int), false, false) ∧
      s'.chat = [⟨"assistant", "hi"⟩] ++
        (if ("done?" : String) ≠ "" then [⟨"user", "done?"⟩] else []) ∧
      s'.lastAction = "notvalid" ∧
      s'.lastActionError = "Error" ++ ": " ++ "Invalid action format: notvalid" ∧
      (extractObservation s').chat_messages = s'.chat ∧
      (extractObservation s').last_action = "notvalid" ∧
      (extractObservation s').last_action_error =
        "Error" ++ ": " ++ "Invalid action format: notvalid" :=
  step_failed_action_transcript (fun _ => .ok ()) ⟨0, false, "done?"⟩
    ⟨some 1, true, [⟨"assistant", "hi"⟩], "", "", [1], [1], 2⟩ "notvalid"
    ⟨"Error", "Invalid action format: notvalid"⟩ 1 rfl rfl rfl

/-! ### Claim C5 -/

/-- C5: on every argument token produced by splitting (such tokens are
already trimmed, which the hypothesis records), `parseValue` implements
exactly the specification's coercion cascade — quoted string (with
backslash-escaped quotes unescaped), then integer, then float, then
boolean literal, then null literal, then the raw token unchanged, an
earlier matching rule always winning — and the listed concrete instances
illustrate each rule and each precedence: quoting beats the boolean,
integer and null readings of the same text. -/
theorem parseValue_follows_spec_order :
    (∀ tok : String, trimL tok.data = tok.data →
        parseValue tok = parseValueSpec tok.data) ∧
    parseValue "'true'" = .str "true" ∧
    parseValue "'123'" = .str "123" ∧
    parseValue "'None'" = .str "None" ∧
    parseValue "123" = .int 123 ∧
    parseValue "-7" = .int (-7) ∧
    parseValue "12.5" = .float "12.5" ∧
    parseValue "True" = .bool true ∧
    parseValue "true" = .bool true ∧
    parseValue "False" = .bool false ∧
    parseValue "false" = .bool false ∧
    parseValue "None" = .null ∧
    parseValue "null" = .null ∧
    parseValue "btn-123" = .str "btn-123" := by
  refine ⟨fun tok htrim => ?_, ?_, ?_, ?_, ?_, ?_, ?_, ?_, ?_, ?_, ?_, ?_, ?_, ?_⟩
  · unfold parseValue parseValueSpec
    rw [htrim]
  all_goals decide

/-- Witness for C5: the universal part discharged at the concrete
trimmed token `x`. -/
theorem parseValue_follows_spec_order_witness :
    parseValue "x" = parseValueSpec "x".data :=
  parseValue_follows_spec_order.1 "x" rfl

/-! ### Claim C4: lemmas about argument scanning -/

/-- `trim` keeps a list that starts and ends with non-whitespace. -/
theorem trimL_keep (a : Char) (mid : List Char) (b : Char)
    (ha : isJsSpace a = false) (hb : isJsSpace b = false) :
    trimL (a :: (mid ++ [b])) = a :: (mid ++ [b]) := by
  unfold trimL
  rw [List.dropWhile_cons]
  simp only [ha, Bool.false_eq_true, if_false]
  rw [show (a :: (mid ++ [b])).reverse = b :: (mid.reverse ++ [a]) by simp]
  rw [List.dropWhile_cons]
  simp only [hb, Bool.false_eq_true, if_false]
  simp

/-- A word character is not whitespace. -/
theorem isWordChar_not_space (c : Char) (h : isWordChar c = true) :
    isJsSpace c = false := by
  cases hjs : isJsSpace c with
  | false => rfl
  | true =>
    exfalso
    have hc : c = ' ' ∨ c = '\t' ∨ c = '\n' ∨ c = '\r' ∨
        c = Char.ofNat 11 ∨ c = Char.ofNat 12 := by
      simpa [isJsSpace, or_assoc] using hjs
    rcases hc with h1 | h1 | h1 | h1 | h1 | h1 <;> subst h1 <;>
      exact absurd h (by decide)

/-- A word character is not a backtick. -/
theorem isWordChar_not_tick (c : Char) (h : isWordChar c = true) :
    ¬c = Char.ofNat 96 := by
  intro hc
  subst hc
  exact absurd h (by decide)

/-- `lastD` steps through a cons. -/
theorem lastD_cons (c : Char) (s : List Char) (d : Char) :
    lastD (c :: s) d = lastD s c := by
  cases s with
  | nil => simp [lastD]
  | cons x t =>
    have hg := List.getLast?_eq_getLast_of_ne_nil (l := x :: t) (by simp)
    simp [lastD, List.getLast?_cons_cons, hg]

/-- `prevAfter` steps through a cons. -/
theorem prevAfter_cons (c : Char) (t : List Char) (prev : Option Char) :
    prevAfter (c :: t) prev = prevAfter t (some c) := by
  cases t with
  | nil => simp [prevAfter]
  | cons x r =>
    have hg := List.getLast?_eq_getLast_of_ne_nil (l := x :: r) (by simp)
    simp [prevAfter, List.getLast?_cons_cons, hg]

/-- Either quote character opens a string when met outside string
mode. -/
theorem parseArgsAux_open_q (q : Char) (hq : q = '"' ∨ q = squote)
    (t cur : List Char) (depth : Int) (strCh : Char) (prev : Option Char) :
    parseArgsAux (q :: t) cur depth false strCh prev
      = parseArgsAux t (cur ++ [q]) depth true q (some q) := by
  have hcond : (q = '"' || q = squote) = true := by
    rcases hq with h | h <;> subst h <;> decide
  rw [parseArgsAux, if_neg (by simp), if_pos hcond]

/-- A comma at bracket depth 0 outside string mode closes the current
argument. -/
theorem parseArgsAux_comma (t cur : List Char) (strCh : Char) (prev : Option Char) :
    parseArgsAux (',' :: t) cur 0 false strCh prev
      = parseValue ⟨trimL cur⟩ :: parseArgsAux t [] 0 false strCh (some ',') := by
  rw [parseArgsAux, if_neg (by simp), if_neg (by decide), if_neg (by decide),
    if_neg (by decide), if_pos (by simp)]

/-- Scanning a span whose embedded quotes are all backslash-escaped
(`staysOpen`) consumes it verbatim, together with the closing quote that
follows it (which does close, the span not ending in a backslash):
commas, parens, brackets and braces inside the span never split. -/
theorem parseArgsAux_scan_open (q : Char) :
    ∀ (s : List Char) (p0 : Char), staysOpen q p0 s = true →
      lastD s p0 ≠ bslash →
      ∀ (rest cur : List Char) (depth : Int),
        parseArgsAux (s ++ q :: rest) cur depth true q (some p0)
          = parseArgsAux rest (cur ++ s ++ [q]) depth false q (some q) := by
  intro s
  induction s with
  | nil =>
    intro p0 _ hlast rest cur depth
    have hp0 : ¬p0 = bslash := by simpa [lastD] using hlast
    rw [List.nil_append, parseArgsAux, if_pos rfl, if_pos (by simp [hp0])]
    simp
  | cons c s' ih =>
    intro p0 hstays hlast rest cur depth
    have h1 : (!(c = q && p0 ≠ bslash)) = true ∧ staysOpen q c s' = true := by
      simpa [staysOpen, Bool.and_eq_true] using hstays
    rw [List.cons_append, parseArgsAux, if_pos rfl, if_neg ?hclose]
    case hclose =>
      intro hcon
      apply absurd h1.1
      simp only [Bool.not_eq_true', Bool.and_eq_false_iff]
      simp only [Bool.and_eq_true, decide_eq_true_eq] at hcon
      push_neg
      refine ⟨by simpa using hcon.1, ?_⟩
      have := hcon.2
      simp only [ne_eq, decide_not, Bool.not_eq_true', decide_eq_false_iff_not] at this ⊢
      intro hfalse
      exact this (by simpa using hfalse)
    rw [ih c h1.2 (by simpa [lastD_cons] using hlast) rest (cur ++ [c]) depth]
    simp

/-- `parseValue` on any quoted token (either quote character) returns
the enclosed text with escaped quotes unescaped. -/
theorem parseValue_quoted_q (q : Char) (hq : q = '"' ∨ q = squote)
    (s : List Char) :
    parseValue ⟨q :: (s ++ [q])⟩ = .str ⟨unescTok s⟩ := by
  unfold parseValue
  rw [show (⟨q :: (s ++ [q])⟩ : String).data = q :: (s ++ [q]) from rfl]
  rw [trimL_keep q s q (by rcases hq with h | h <;> subst h <;> decide)
    (by rcases hq with h | h <;> subst h <;> decide)]
  have hlast : (q :: (s ++ [q])).getLast? = some q := by
    rw [show (q :: (s ++ [q])) = (q :: s) ++ [q] from by simp]
    exact List.getLast?_concat _
  have hqt : isQuotedTok (q :: (s ++ [q])) = true := by
    rcases hq with h | h <;> subst h <;> simp +decide [isQuotedTok, hlast]
  rw [if_pos hqt]
  simp only [unquoteTok, unescTok, List.drop_succ_cons, List.drop_zero,
    List.dropLast_concat]

/-- Scanning a quote-free span whose bracket depth never surfaces a
comma at depth 0 (`scanTok`) consumes it verbatim without splitting:
commas inside matched parens, brackets or braces, at any nesting depth,
never split. -/
theorem parseArgsAux_scan_tok :
    ∀ (t : List Char) (d d' : Int), scanTok d t = some d' →
      ∀ (rest cur : List Char) (strCh : Char) (prev : Option Char),
        parseArgsAux (t ++ rest) cur d false strCh prev
          = parseArgsAux rest (cur ++ t) d' false strCh (prevAfter t prev) := by
  intro t
  induction t with
  | nil =>
    intro d d' hscan rest cur strCh prev
    have hd : d = d' := by simpa [scanTok] using hscan
    subst hd
    simp [prevAfter]
  | cons c t' ih =>
    intro d d' hscan rest cur strCh prev
    rw [scanTok] at hscan
    rw [List.cons_append, parseArgsAux, if_neg (by simp)]
    by_cases hq : (c = '"' || c = squote) = true
    · rw [if_pos hq] at hscan
      exact absurd hscan (by simp)
    · rw [if_neg hq] at hscan
      rw [if_neg hq]
      by_cases hop : (c = '(' || c = '[' || c = '{') = true
      · rw [if_pos hop] at hscan
        rw [if_pos hop, ih (d + 1) d' hscan rest (cur ++ [c]) strCh (some c),
          prevAfter_cons]
        simp
      · rw [if_neg hop] at hscan
        rw [if_neg hop]
        by_cases hcl : (c = ')' || c = ']' || c = '}') = true
        · rw [if_pos hcl] at hscan
          rw [if_pos hcl, ih (d - 1) d' hscan rest (cur ++ [c]) strCh (some c),
            prevAfter_cons]
          simp
        · rw [if_neg hcl] at hscan
          rw [if_neg hcl]
          by_cases hcm : (c = ',' && d = 0) = true
          · rw [if_pos hcm] at hscan
            exact absurd hscan (by simp)
          · rw [if_neg hcm] at hscan
            rw [if_neg hcm, ih d d' hscan rest (cur ++ [c]) strCh (some c),
              prevAfter_cons]
            simp

/-- A non-whitespace character survives `dropWhile isJsSpace`. -/
theorem mem_dropWhile_not_space (c : Char) (hc : isJsSpace c = false) :
    ∀ l : List Char, c ∈ l → c ∈ l.dropWhile isJsSpace := by
  intro l
  induction l with
  | nil => intro h; exact absurd h (by simp)
  | cons d t ih =>
    intro hmem
    rw [List.dropWhile_cons]
    by_cases hd : isJsSpace d = true
    · rw [if_pos hd]
      rcases List.mem_cons.mp hmem with h1 | h1
      · exact absurd (h1 ▸ hd) (by simp [hc])
      · exact ih h1
    · rw [if_neg hd]
      exact hmem

/-- A list holding a non-whitespace character does not trim to
nothing. -/
theorem trimL_ne_nil (l : List Char) (c : Char) (hc : c ∈ l)
    (hs : isJsSpace c = false) : trimL l ≠ [] := by
  intro h
  unfold trimL at h
  have h2 : (l.dropWhile isJsSpace).reverse.dropWhile isJsSpace = [] := by
    simpa using congrArg List.reverse h
  have h3 := List.dropWhile_eq_nil_iff.mp h2
  have h4 : c ∈ (l.dropWhile isJsSpace).reverse :=
    List.mem_reverse.mpr (mem_dropWhile_not_space c hs l hc)
  exact absurd (h3 c h4) (by simp [hs])

/-- `takeWhile` passes over a block that satisfies the predicate. -/
theorem takeWhile_append_all (f : Char → Bool) (a b : List Char)
    (h : a.all f = true) : (a ++ b).takeWhile f = a ++ b.takeWhile f := by
  induction a with
  | nil => simp
  | cons c t ih =>
    have hc : f c = true := by
      simp only [List.all_cons, Bool.and_eq_true] at h; exact h.1
    have ht : t.all f = true := by
      simp only [List.all_cons, Bool.and_eq_true] at h; exact h.2
    rw [List.cons_append, List.takeWhile_cons, if_pos hc, ih ht]
    rfl

/-- A non-backtick first character means no code fence is stripped. -/
theorem stripFence_no_ticks (c : Char) (l : List Char) (h : ¬c = Char.ofNat 96) :
    stripFence (c :: l) = c :: l := by
  have hpre : ([Char.ofNat 96, Char.ofNat 96, Char.ofNat 96].isPrefixOf (c :: l)) = false := by
    cases hcl : [Char.ofNat 96, Char.ofNat 96, Char.ofNat 96].isPrefixOf (c :: l) with
    | false => rfl
    | true =>
      have hp := List.isPrefixOf_iff_prefix.mp hcl
      exact absurd (List.cons_prefix_cons.mp hp).1.symm h
  unfold stripFence
  simp only [hpre, Bool.false_eq_true, if_false]

/-- The function-call regex on `name(` ++ body ++ `)` captures any
nonempty word-character name and the body, for any body free of line
terminators. -/
theorem matchCall_gen (nm body : List Char) (hnm : nm ≠ [])
    (hw : nm.all isWordChar = true) (hnl : body.any isJsLineTerm = false) :
    matchCall (nm ++ '(' :: (body ++ [')'])) = some (nm, body) := by
  have htw : (nm ++ '(' :: (body ++ [')'])).takeWhile isWordChar = nm := by
    rw [takeWhile_append_all isWordChar nm _ hw, List.takeWhile_cons,
      show isWordChar '(' = false from rfl]
    simp
  have hie : nm.isEmpty = false := by
    cases nm with
    | nil => exact absurd rfl hnm
    | cons a t => rfl
  simp only [matchCall, htw, hie]
  simp only [Bool.false_eq_true, if_false]
  rw [show List.drop nm.length (nm ++ '(' :: (body ++ [')']))
      = '(' :: (body ++ [')']) from List.drop_left nm _]
  rw [List.dropWhile_cons, show isJsSpace '(' = false from rfl]
  simp only [Bool.false_eq_true, if_false, List.head?_cons, List.tail_cons]
  rw [if_pos trivial]
  rw [show (body ++ [')']).reverse = ')' :: body.reverse from by simp]
  rw [List.dropWhile_cons, show isJsSpace ')' = false from rfl]
  simp only [Bool.false_eq_true, if_false, List.head?_cons, List.tail_cons,
    List.reverse_reverse]
  rw [if_pos trivial]
  rw [hnl]
  simp

/-- `parseAction` on `name(` ++ body ++ `)` — any nonempty word-char
name, any line-terminator-free body — is the parsed name together with
`parseArgs` of the body. -/
theorem parseAction_shape (nm body : List Char) (hnm : nm ≠ [])
    (hw : nm.all isWordChar = true) (hnl : body.any isJsLineTerm = false) :
    parseAction ⟨nm ++ '(' :: (body ++ [')'])⟩ = .ok (⟨nm⟩, parseArgs ⟨body⟩) := by
  obtain ⟨c, nm', rfl⟩ : ∃ c nm', nm = c :: nm' := by
    cases nm with
    | nil => exact absurd rfl hnm
    | cons a t => exact ⟨a, t, rfl⟩
  have hcw : isWordChar c = true := by
    simp only [List.all_cons, Bool.and_eq_true] at hw; exact hw.1
  have hshape : (c :: nm') ++ '(' :: (body ++ [')'])
      = c :: ((nm' ++ '(' :: body) ++ [')']) := by simp
  unfold parseAction
  rw [show (⟨(c :: nm') ++ '(' :: (body ++ [')'])⟩ : String).data
      = (c :: nm') ++ '(' :: (body ++ [')']) from rfl]
  rw [hshape, trimL_keep c _ ')' (isWordChar_not_space c hcw) (by decide),
    stripFence_no_ticks c _ (isWordChar_not_tick c hcw), ← hshape,
    matchCall_gen (c :: nm') body hnm hw hnl]

/-- Splitting the quoted two-argument body `q1 s1 q1 , q2 s2 q2`:
commas, parens, brackets and braces inside the quotes (single or double,
escaped quotes allowed) never split, and the two tokens come back
unescaped. -/
theorem parseArgs_two_quoted_q (q1 q2 : Char)
    (hq1 : q1 = '"' ∨ q1 = squote) (hq2 : q2 = '"' ∨ q2 = squote)
    (s1 s2 : List Char)
    (h1 : staysOpen q1 q1 s1 = true) (hl1 : lastD s1 q1 ≠ bslash)
    (h2 : staysOpen q2 q2 s2 = true) (hl2 : lastD s2 q2 ≠ bslash) :
    parseArgs ⟨q1 :: (s1 ++ q1 :: ',' :: q2 :: (s2 ++ [q2]))⟩ =
      [.str ⟨unescTok s1⟩, .str ⟨unescTok s2⟩] := by
  have hsp1 : isJsSpace q1 = false := by rcases hq1 with h | h <;> subst h <;> decide
  have hsp2 : isJsSpace q2 = false := by rcases hq2 with h | h <;> subst h <;> decide
  have hds : (⟨q1 :: (s1 ++ q1 :: ',' :: q2 :: (s2 ++ [q2]))⟩ : String).data
      = q1 :: (s1 ++ q1 :: ',' :: q2 :: (s2 ++ [q2])) := rfl
  have hsh : q1 :: (s1 ++ q1 :: ',' :: q2 :: (s2 ++ [q2]))
      = q1 :: ((s1 ++ q1 :: ',' :: q2 :: s2) ++ [q2]) := by simp
  have htrim := trimL_keep q1 (s1 ++ q1 :: ',' :: q2 :: s2) q2 hsp1 hsp2
  unfold parseArgs
  rw [hds, hsh, htrim, if_neg (by simp), ← hsh]
  rw [parseArgsAux_open_q q1 hq1]
  rw [parseArgsAux_scan_open q1 s1 q1 h1 hl1]
  rw [show ([] ++ [q1]) ++ s1 ++ [q1] = q1 :: (s1 ++ [q1]) from by simp]
  rw [parseArgsAux_comma]
  rw [trimL_keep q1 s1 q1 hsp1 hsp1]
  rw [show (q2 :: (s2 ++ [q2])) = q2 :: (s2 ++ q2 :: []) from by simp]
  rw [parseArgsAux_open_q q2 hq2]
  rw [parseArgsAux_scan_open q2 s2 q2 h2 hl2]
  rw [show ([] ++ [q2]) ++ s2 ++ [q2] = q2 :: (s2 ++ [q2]) from by simp]
  rw [parseArgsAux]
  rw [trimL_keep q2 s2 q2 hsp2 hsp2]
  rw [if_pos (by simp)]
  rw [parseValue_quoted_q q1 hq1 s1, parseValue_quoted_q q2 hq2 s2]

/-- Splitting the bracketed two-argument body `t1 , t2`: each token is
quote-free and keeps every comma behind at least one open paren, bracket
or brace, so only the separator comma splits. -/
theorem parseArgs_two_toks (t1 t2 : List Char)
    (h1 : scanTok 0 t1 = some 0) (h2 : scanTok 0 t2 = some 0)
    (ht2 : trimL t2 ≠ []) :
    parseArgs ⟨t1 ++ ',' :: t2⟩ = [parseValue ⟨trimL t1⟩, parseValue ⟨trimL t2⟩] := by
  have hds : (⟨t1 ++ ',' :: t2⟩ : String).data = t1 ++ ',' :: t2 := rfl
  have hcm : (',' : Char) ∈ t1 ++ ',' :: t2 := by simp
  unfold parseArgs
  rw [hds, if_neg (trimL_ne_nil _ ',' hcm (by decide))]
  rw [parseArgsAux_scan_tok t1 0 0 h1 (',' :: t2) [] ' ' none]
  rw [List.nil_append, parseArgsAux_comma]
  have hlast := parseArgsAux_scan_tok t2 0 0 h2 [] [] ' ' (some ',')
  rw [List.append_nil, List.nil_append] at hlast
  rw [hlast, parseArgsAux, if_pos ht2]

/-! ### Claim C4 -/

/-- C4: characters that normally drive the splitter — commas, parens,
brackets, braces — never split an argument when they sit inside a
single- or double-quoted argument or inside matched
parens/brackets/braces.  The first part is universal over the call name,
over both quote characters for each of the two arguments independently,
and over arbitrary argument texts in which every embedded quote is
backslash-escaped (`staysOpen`) — the quoted content is returned
unescaped.  The second part is universal over quote-free argument
tokens whose commas all sit inside matched parens/brackets/braces at any
nesting depth (`scanTok` returns to depth 0 with no depth-0 comma) —
only the separator comma splits.  The concrete instances are the
specification's own examples: `fill("in1","a, b")` parses to name `fill`
with arguments `["in1", "a, b"]`, `noop()` parses to name `noop` with no
arguments, and `foo([1, 2], 3)` keeps `[1, 2]` whole. -/
theorem parseAction_no_split_inside_quotes :
    (∀ (nm : List Char) (q1 q2 : Char) (s1 s2 : List Char),
        nm ≠ [] → nm.all isWordChar = true →
        q1 = '"' ∨ q1 = squote → q2 = '"' ∨ q2 = squote →
        staysOpen q1 q1 s1 = true → lastD s1 q1 ≠ bslash →
        s1.any isJsLineTerm = false →
        staysOpen q2 q2 s2 = true → lastD s2 q2 ≠ bslash →
        s2.any isJsLineTerm = false →
        parseAction ⟨nm ++ '(' ::
            ((q1 :: (s1 ++ q1 :: ',' :: q2 :: (s2 ++ [q2]))) ++ [')'])⟩ =
          .ok (⟨nm⟩, [.str ⟨unescTok s1⟩, .str ⟨unescTok s2⟩])) ∧
    (∀ (nm t1 t2 : List Char),
        nm ≠ [] → nm.all isWordChar = true →
        scanTok 0 t1 = some 0 → scanTok 0 t2 = some 0 →
        t1.any isJsLineTerm = false → t2.any isJsLineTerm = false →
        trimL t2 ≠ [] →
        parseAction ⟨nm ++ '(' :: ((t1 ++ ',' :: t2) ++ [')'])⟩ =
          .ok (⟨nm⟩, [parseValue ⟨trimL t1⟩, parseValue ⟨trimL t2⟩])) ∧
    parseAction "fill(\"in1\",\"a, b\")" = .ok ("fill", [.str "in1", .str "a, b"]) ∧
    parseAction "noop()" = .ok ("noop", []) ∧
    parseAction "foo([1, 2], 3)" = .ok ("foo", [.str "[1, 2]", .int 3]) := by
  refine ⟨fun nm q1 q2 s1 s2 hnm hw hq1 hq2 h1 hl1 hn1 h2 hl2 hn2 => ?_,
    fun nm t1 t2 hnm hw h1 h2 hn1 hn2 ht2 => ?_, by decide, by decide, by decide⟩
  · have hq1lt : isJsLineTerm q1 = false := by
      rcases hq1 with h | h <;> subst h <;> decide
    have hq2lt : isJsLineTerm q2 = false := by
      rcases hq2 with h | h <;> subst h <;> decide
    have hbody : (q1 :: (s1 ++ q1 :: ',' :: q2 :: (s2 ++ [q2]))).any
        isJsLineTerm = false := by
      simp +decide [List.any_append, List.any_cons, hn1, hn2, hq1lt, hq2lt]
    rw [parseAction_shape nm _ hnm hw hbody,
      parseArgs_two_quoted_q q1 q2 hq1 hq2 s1 s2 h1 hl1 h2 hl2]
  · have hbody : (t1 ++ ',' :: t2).any isJsLineTerm = false := by
      simp +decide [List.any_append, List.any_cons, hn1, hn2]
    rw [parseAction_shape nm _ hnm hw hbody, parseArgs_two_toks t1 t2 h1 h2 ht2]

/-- Witness for C4: the specification's own double-quoted example with a
comma inside the second argument; a single-quoted call whose first
argument holds a backslash-escaped quote and a comma (returned
unescaped); and a bracketed call with commas nested two deep. -/
theorem parseAction_no_split_inside_quotes_witness :
    parseAction ⟨"fill".data ++ '(' ::
        (('"' :: ("in1".data ++ '"' :: ',' :: '"' :: ("a, b".data ++ ['"']))) ++ [')'])⟩ =
      .ok ("fill", [.str "in1", .str "a, b"]) ∧
    parseAction ⟨"press".data ++ '(' ::
        ((squote :: (['a', bslash, squote, 'b', ','] ++
          squote :: ',' :: squote :: ("x".data ++ [squote]))) ++ [')'])⟩ =
      .ok ("press", [.str ⟨['a', squote, 'b', ',']⟩, .str "x"]) ∧
    parseAction ⟨"foo".data ++ '(' ::
        (("[1, 2]".data ++ ',' :: " (3, (4, 5))".data) ++ [')'])⟩ =
      .ok ("foo", [.str "[1, 2]", .str "(3, (4, 5))"]) :=
  ⟨parseAction_no_split_inside_quotes.1 "fill".data '"' '"' "in1".data "a, b".data
      (by decide) (by decide) (Or.inl rfl) (Or.inl rfl)
      (by decide) (by decide) (by decide) (by decide) (by decide) (by decide),
   parseAction_no_split_inside_quotes.1 "press".data squote squote
      ['a', bslash, squote, 'b', ','] "x".data
      (by decide) (by decide) (Or.inr rfl) (Or.inr rfl)
      (by decide) (by decide) (by decide) (by decide) (by decide) (by decide),
   parseAction_no_split_inside_quotes.2.1 "foo".data "[1, 2]".data " (3, (4, 5))".data
      (by decide) (by decide) (by decide) (by decide) (by decide) (by decide)
      (by decide)⟩

/-! ### Claim C6 -/

/-- C6: a child frame that is attached (`detached = false`), content-OK,
not sandboxed (`sandbox = none`) and exposes no `bid` attribute after its
parent (the main frame, `evalOk = true`) was marked does NOT abort the
marking: the deliberately thrown `MarkingError` is caught by the
per-child-frame handler, `preExtract` returns normally with only the root
frame marked, and the violation survives only as a `console.warn`
message.  This contradicts the claim (and §4.1 of the specification,
and the code's own deliberate `throw new MarkingError(...)`), which say
the missing identifier is a fatal error that is not skipped. -/
theorem preExtract_swallows_missing_bid :
    preExtract (.node true [(⟨false, true, none, none⟩, .node true [])]) =
      .ok ⟨["Error processing child frame: Error: Cannot mark a child frame without a bid."],
           [""]⟩ := rfl

/-! ### Claim C8 -/

/-- C8 counterexample: stripping the legacy `webclones.` prefix uses
JavaScript `split('.', 2)[1]`, which keeps only the segment between the
first and second dot.  The versioned reference `v1.omnizon-1` canonicalizes
to `v1.omnizon-1` on its own, but with the `webclones.` prefix it
canonicalizes to `v2.v1`: the underlying reference's version and name are
NOT preserved. -/
theorem canonicalizeTaskName_drops_versioned_webclones :
    canonicalizeTaskName "v2" "webclones.v1.omnizon-1" = .ok "v2.v1" ∧
    canonicalizeTaskName "v2" "v1.omnizon-1" = .ok "v1.omnizon-1" ∧
    ("v2.v1" : String) ≠ "v1.omnizon-1" :=
  ⟨rfl, rfl, by decide⟩

/-! ### Claim C7 -/

/-- C7 counterexample: with `forceRefresh` on but caching off, the
episode is re-executed (the returned result is the fresh episode result,
not the cached one) yet nothing overwrites the cache entry — the claim's
"a forced refresh always overwrites the cache entry" fails when caching
is disabled. -/
theorem forceRefresh_without_cache_no_overwrite :
    (runSingleTask ⟨false, false, true, 25⟩
        (fun t => if t = "t" then some ⟨1, 5, 3, true, none⟩ else none)
        ⟨.ok 0, fun _ => .ok (7, 0, true, false)⟩ "t").toOption.map
          (fun rc => (rc.1, rc.2 "t")) =
      some (⟨0, 7, 1, false, none⟩, some ⟨1, 5, 3, true, none⟩) ∧
    (⟨0, 7, 1, false, none⟩ : TaskResult) ≠ ⟨1, 5, 3, true, none⟩ :=
  ⟨rfl, by decide⟩

/-- C7 amended: (i) with caching enabled and no forced refresh, a cached
result is returned unchanged and the cache is untouched; (ii) with a
forced refresh, caching enabled and cache-only mode off, the run ignores
the cache content entirely (it is re-executed from the episode oracle
alone) and, on success, the fresh result overwrites the cache entry for
that task; (iii) with caching disabled the episode still re-executes but
nothing is written back. -/
theorem cache_hit_and_forceRefresh_behavior :
    (∀ (cfg : HarnessCfg) (cache : String → Option TaskResult)
        (orc : EpisodeOracle) (t : String) (r : TaskResult),
        cfg.useCache = true → cfg.forceRefresh = false → cache t = some r →
        runSingleTask cfg cache orc t = .ok (r, cache)) ∧
    (∀ (cfg : HarnessCfg) (cache : String → Option TaskResult)
        (orc : EpisodeOracle) (t : String),
        cfg.useCache = true → cfg.forceRefresh = true → cfg.cacheOnly = false →
        runSingleTask cfg cache orc t =
          (runEpisode cfg orc).map
            (fun r => (r, fun u => if u = t then some r else cache u))) ∧
    (∀ (cfg : HarnessCfg) (cache : String → Option TaskResult)
        (orc : EpisodeOracle) (t : String),
        cfg.useCache = false → cfg.cacheOnly = false →
        runSingleTask cfg cache orc t =
          (runEpisode cfg orc).map (fun r => (r, cache))) := by
  refine ⟨fun cfg cache orc t r hu hf hc => ?_, fun cfg cache orc t hu hf hco => ?_,
    fun cfg cache orc t hu hco => ?_⟩
  · unfold runSingleTask
    rw [hu, hf]
    simp [hc]
  · unfold runSingleTask
    rw [hu, hf]
    simp only [Bool.not_true, Bool.and_false, if_false, hco]
    cases runEpisode cfg orc with
    | error e => simp [Except.map]
    | ok result => simp [Except.map, hu]
  · unfold runSingleTask
    rw [hu]
    simp only [Bool.false_and, if_false, hco]
    cases runEpisode cfg orc with
    | error e => simp [Except.map]
    | ok result => simp [Except.map, hu]

/-- Witness for C7 (amended): a concrete cache hit, a concrete forced
refresh that overwrites, and a concrete cache-disabled run. -/
theorem cache_hit_and_forceRefresh_behavior_witness :
    runSingleTask ⟨true, false, false, 25⟩
        (fun t => if t = "t" then some ⟨1, 5, 3, true, none⟩ else none)
        ⟨.ok 0, fun _ => .ok (7, 0, true, false)⟩ "t" =
      .ok (⟨1, 5, 3, true, none⟩,
        fun t => if t = "t" then some ⟨1, 5, 3, true, none⟩ else none) ∧
    runSingleTask ⟨true, false, true, 25⟩ (fun _ => none)
        ⟨.ok 0, fun _ => .ok (7, 0, true, false)⟩ "t" =
      (runEpisode ⟨true, false, true, 25⟩
          ⟨.ok 0, fun _ => .ok (7, 0, true, false)⟩).map
        (fun r => (r, fun u => if u = "t" then some r else none)) :=
  ⟨cache_hit_and_forceRefresh_behavior.1 ⟨true, false, false, 25⟩ _ _ "t" _ rfl rfl
      (by simp),
   cache_hit_and_forceRefresh_behavior.2.1 ⟨true, false, true, 25⟩ _ _ "t" rfl rfl rfl⟩

/-! ### Claim C2 -/

/-- If every loop iteration before `k` succeeds without terminating and
iteration `k` (inside the step budget) throws, the loop stops at `k` with
the error recorded. -/
theorem runLoop_stops_at_error
    (stepOut : Nat → Except String (Int × Int × Bool × Bool)) (e : String) (k : Nat) :
    ∀ (fuel i : Nat) (obs cum : Int), i ≤ k → k < i + fuel →
      (∀ j, i ≤ j → j < k →
        ∃ o r, stepOut j = .ok (o, r, false, false)) →
      stepOut k = .error e →
      ∃ o c, runLoop stepOut fuel i obs cum = (o, c, k, some e) := by
  intro fuel
  induction fuel with
  | zero => intro i obs cum hik hk _ _; omega
  | succ n ih =>
    intro i obs cum hik hk hsteps herr
    rcases Nat.eq_or_lt_of_le hik with heq | hlt
    · subst heq
      rw [runLoop, herr]
      exact ⟨obs, cum, rfl⟩
    · obtain ⟨o, r, hj⟩ := hsteps i le_rfl hlt
      rw [runLoop, hj]
      simp only [Bool.or_self, Bool.false_eq_true, if_false]
      exact ih (i + 1) o r hlt (by omega)
        (fun j hj1 hj2 => hsteps j (by omega) hj2) herr

/-- C2 counterexample: a two-task batch where the first task's
`env.reset` throws.  `runTasks` rejects with that error: no failed
`TaskResult` is produced for the first task and the second task never
runs — the batch does not continue.  (The same happens for a cache-only
miss, whose throw also escapes `runSingleTask`.) -/
theorem runTasks_aborts_on_reset_error :
    runTasks ⟨true, false, false, 25⟩ (fun _ => none)
      (fun t => if t = "a"
        then ⟨.error "boom", fun _ => .ok (0, 0, false, false)⟩
        else ⟨.ok 0, fun _ => .ok (3, 1, true, false)⟩)
      ["a", "b"] = .error "boom" := rfl

/-- C2 amended: error isolation holds only for errors thrown inside the
per-step agent/environment loop.  (i) If `env.reset` succeeds and some
iteration `k` within the budget throws after `k` non-terminal successful
iterations, `runSingleTask` still returns a `TaskResult` whose `err_msg`
records the error and whose step count is `k` — the error does not
escape.  (ii) A task whose `runSingleTask` returns a result (as such
step-failed tasks do) never aborts the batch: `runTasks` continues with
the remaining tasks and keeps the result.  Errors thrown while resetting
the environment or on a cache-only miss, by contrast, escape
`runSingleTask` and reject the whole batch
(`runTasks_aborts_on_reset_error`). -/
theorem harness_isolates_step_errors :
    (∀ (cfg : HarnessCfg) (cache : String → Option TaskResult)
        (orc : EpisodeOracle) (t : String) (obs0 : Int) (e : String) (k : Nat),
        (if cfg.useCache && !cfg.forceRefresh then cache t else none) = none →
        cfg.cacheOnly = false →
        orc.resetOut = .ok obs0 →
        (∀ j, j < k → ∃ o r, orc.stepOut j = .ok (o, r, false, false)) →
        orc.stepOut k = .error e →
        k < cfg.maxSteps →
        ∃ r cache', runSingleTask cfg cache orc t = .ok (r, cache') ∧
          r.err_msg = some e ∧ r.num_steps = k) ∧
    (∀ (cfg : HarnessCfg) (cache cache' : String → Option TaskResult)
        (orcs : String → EpisodeOracle) (t : String) (ts : List String)
        (r : TaskResult),
        runSingleTask cfg cache (orcs t) t = .ok (r, cache') →
        runTasks cfg cache orcs (t :: ts) =
          (runTasks cfg cache' orcs ts).map (fun rc => ((t, r) :: rc.1, rc.2))) := by
  constructor
  · intro cfg cache orc t obs0 e k hmiss hco hreset hsteps herr hk
    obtain ⟨o, c, hloop⟩ := runLoop_stops_at_error orc.stepOut e k cfg.maxSteps 0 obs0 0
      (Nat.zero_le k) (by omega) (fun j _ hj2 => hsteps j hj2) herr
    have hep : runEpisode cfg orc = .ok ⟨c, o, k, decide (c = 1), some e⟩ := by
      unfold runEpisode
      rw [hreset]
      show Except.ok (⟨(runLoop orc.stepOut cfg.maxSteps 0 obs0 0).2.1,
        (runLoop orc.stepOut cfg.maxSteps 0 obs0 0).1,
        (runLoop orc.stepOut cfg.maxSteps 0 obs0 0).2.2.1,
        decide ((runLoop orc.stepOut cfg.maxSteps 0 obs0 0).2.1 = 1),
        (runLoop orc.stepOut cfg.maxSteps 0 obs0 0).2.2.2⟩ : TaskResult) = _
      rw [hloop]
    unfold runSingleTask
    rw [hmiss, hco]
    simp only [Bool.false_eq_true, if_false]
    rw [hep]
    cases hcase : cfg.useCache <;> simp [hcase]
  · intro cfg cache cache' orcs t ts r hone
    cases h : runTasks cfg cache' orcs ts with
    | error e =>
      rw [runTasks, hone]
      show (match runTasks cfg cache' orcs ts with
        | Except.error e => Except.error e
        | Except.ok (rs, cache'') => Except.ok ((t, r) :: rs, cache'')) = _
      rw [h]
      simp [Except.map]
    | ok rc =>
      rw [runTasks, hone]
      show (match runTasks cfg cache' orcs ts with
        | Except.error e => Except.error e
        | Except.ok (rs, cache'') => Except.ok ((t, r) :: rs, cache'')) = _
      rw [h]
      simp [Except.map]

/-- Witness for C2 (amended): a concrete task whose second step throws
becomes a failed result with `err_msg` set, and a concrete batch headed
by a task with a successful `runSingleTask` continues into its tail. -/
theorem harness_isolates_step_errors_witness :
    (∃ r cache', runSingleTask ⟨false, false, false, 25⟩ (fun _ => none)
        ⟨.ok 0, fun i => if i = 0 then .ok (2, 0, false, false) else .error "agent crashed"⟩
        "v2.omnizon-1" = .ok (r, cache') ∧
      r.err_msg = some "agent crashed" ∧ r.num_steps = 1) ∧
    runTasks ⟨false, false, false, 25⟩ (fun _ => none)
        (fun _ => ⟨.ok 0, fun _ => .ok (3, 1, true, false)⟩) ["a", "b"] =
      (runTasks ⟨false, false, false, 25⟩ (fun _ => none)
          (fun _ => ⟨.ok 0, fun _ => .ok (3, 1, true, false)⟩) ["b"]).map
        (fun rc => (("a", ⟨1, 3, 1, true, none⟩) :: rc.1, rc.2)) :=
  ⟨harness_isolates_step_errors.1 ⟨false, false, false, 25⟩ (fun _ => none)
      ⟨.ok 0, fun i => if i = 0 then .ok (2, 0, false, false) else .error "agent crashed"⟩
      "v2.omnizon-1" 0 "agent crashed" 1 rfl rfl rfl
      (fun j hj => ⟨2, 0, by interval_cases j <;> rfl⟩)
      rfl (by decide),
   harness_isolates_step_errors.2 ⟨false, false, false, 25⟩ (fun _ => none) (fun _ => none)
      (fun _ => ⟨.ok 0, fun _ => .ok (3, 1, true, false)⟩) "a" ["b"]
      ⟨1, 3, 1, true, none⟩ rfl⟩

/-! ### Claim C3 -/

/-- The default head of a nonempty list is its head. -/
theorem headD_mem (l : List Nat) (h : l ≠ []) : l.headD 0 ∈ l := by
  cases l with
  | nil => exact absurd rfl h
  | cons a t => simp

/-- The fallback loop always lands on an open page. -/
theorem apcPop_fst_mem (pages : List Nat) (hp : pages ≠ []) :
    ∀ hist, (apcPop pages hist).1 ∈ pages := by
  intro hist
  induction hist using apcPop.induct pages with
  | case1 => rw [apcPop, dif_pos rfl]; exact headD_mem pages hp
  | case2 x hx q hmem => rw [apcPop, dif_neg hx, if_pos hmem]; exact hmem
  | case3 x hx q hmem ih => rw [apcPop, dif_neg hx, if_neg hmem]; exact ih

/-- A nonempty list splits as `dropLast ++ [last]`, with `histLast`
naming the last element. -/
theorem histLast_split (l : List Nat) (h : l ≠ []) :
    l.dropLast ++ [histLast l] = l := by
  have h1 := List.getLast?_eq_getLast_of_ne_nil h
  rw [show histLast l = l.getLast h from by simp [histLast, h1]]
  exact List.dropLast_append_getLast h

/-- On a duplicate-free history, erasing the most recent entry drops the
last element. -/
theorem erase_histLast (l : List Nat) (h : l ≠ []) (hnd : l.Nodup) :
    l.erase (histLast l) = l.dropLast := by
  have hsplit := histLast_split l h
  have hnotmem : histLast l ∉ l.dropLast := by
    have := hsplit ▸ hnd
    have hd := List.disjoint_of_nodup_append this
    intro hmem
    exact hd hmem (by simp)
  have base : ∀ (d : List Nat) (q : Nat), q ∉ d → (d ++ [q]).erase q = d := by
    intro d q hq
    rw [List.erase_append_right _ hq]
    simp
  calc l.erase (histLast l)
      = (l.dropLast ++ [histLast l]).erase (histLast l) := by rw [hsplit]
    _ = l.dropLast := base _ _ hnotmem

/-- `apcPop` lands on the most recently activated still-open history
entry, or on the first open page when no history entry is open
(duplicate-free histories). -/
theorem apcPop_fst_eq_fallback (pages : List Nat) :
    ∀ hist, hist.Nodup → (apcPop pages hist).1 = fallbackPage pages hist := by
  intro hist
  induction hist using apcPop.induct pages with
  | case1 =>
    intro _
    rw [apcPop, dif_pos rfl]
    simp [fallbackPage, lastOpen]
  | case2 x hx q hmem =>
    intro _
    rw [apcPop, dif_neg hx, if_pos hmem]
    have hsplit := histLast_split x hx
    unfold fallbackPage lastOpen
    conv_rhs => rw [← hsplit]
    rw [List.filter_append]
    rw [show List.filter (fun p => decide (p ∈ pages)) [histLast x] = [histLast x] from
      by simp [List.filter, hmem]]
    rw [List.getLast?_concat]
    rfl
  | case3 x hx q hmem ih =>
    intro hnd
    rw [apcPop, dif_neg hx, if_neg hmem]
    rw [erase_histLast x hx hnd] at ih ⊢
    rw [ih (hnd.sublist (List.dropLast_sublist x))]
    have hsplit := histLast_split x hx
    unfold fallbackPage lastOpen
    conv_rhs => rw [← hsplit]
    rw [List.filter_append]
    rw [show List.filter (fun p => decide (p ∈ pages)) [histLast x] = [] from
      by simp [List.filter, hmem]]
    simp

/-- `activePageCheck` never leaves zero open pages. -/
theorem activePageCheck_pages_ne_nil (s : EnvState) :
    (activePageCheck s).openPages ≠ [] := by
  unfold activePageCheck
  split
  · simp
  · split
    next => simpa using ‹¬s.openPages = []›
    next cur _ =>
      split
      · simpa using ‹¬s.openPages = []›
      · simpa using ‹¬s.openPages = []›

/-- `activePageCheck` always resolves to an open active page. -/
theorem activePageCheck_page_open (s : EnvState) :
    ∃ p, (activePageCheck s).page = some p ∧ p ∈ (activePageCheck s).openPages := by
  unfold activePageCheck
  split
  · exact ⟨s.nextId, rfl, by simp⟩
  · rename_i hne
    split
    next =>
      exact ⟨s.openPages.headD 0, rfl, headD_mem _ hne⟩
    next cur hcur =>
      split
      next hmem => exact ⟨cur, by simp [hcur], hmem⟩
      next hmem =>
        exact ⟨(apcPop s.openPages (s.history.erase cur)).1, rfl,
          apcPop_fst_mem _ hne _⟩

/-- `extractObservation` reports exactly the context's open pages. -/
theorem extractObservation_pages (s : EnvState) :
    (extractObservation s).open_pages_urls = s.openPages := rfl

/-- C3: the environment never exposes an observation with zero open
tabs.  (i) After `activePageCheck` at least one page is open and the
active page is open; (ii) when no page is open at all, a fresh blank page
(the next page id) is opened and becomes active; (iii) when the active
page has closed and pages remain, the new active page is the most
recently activated still-open history entry — most recent first — or
the first open page if no history entry survives; (iv) consequently every
observation `step` returns lists at least one open tab. -/
theorem env_never_exposes_zero_tabs :
    (∀ s : EnvState, (activePageCheck s).openPages ≠ [] ∧
        ∃ p, (activePageCheck s).page = some p ∧
          p ∈ (activePageCheck s).openPages) ∧
    (∀ s : EnvState, s.openPages = [] →
        (activePageCheck s).page = some s.nextId ∧
        (activePageCheck s).openPages = [s.nextId]) ∧
    (∀ (s : EnvState) (cur : Nat), s.page = some cur → cur ∉ s.openPages →
        s.openPages ≠ [] → s.history.Nodup →
        (activePageCheck s).page =
          some (fallbackPage s.openPages (s.history.erase cur))) ∧
    (∀ (orc : String → Except JsError Unit) (v : ValidateOut) (s : EnvState)
        (action : String) (s' : EnvState) (obs : Observation) (r : Int)
        (d tr : Bool),
        step orc v s action = .ok (s', obs, r, d, tr) →
        obs.open_pages_urls ≠ []) := by
  refine ⟨fun s => ⟨activePageCheck_pages_ne_nil s, activePageCheck_page_open s⟩,
    fun s h => ?_, fun s cur hcur hclosed hne hnd => ?_, ?_⟩
  · unfold activePageCheck
    rw [if_pos h]
    exact ⟨rfl, rfl⟩
  · unfold activePageCheck
    rw [if_neg hne]
    simp only [hcur]
    rw [if_neg hclosed]
    show some (apcPop s.openPages (s.history.erase cur)).1 = _
    rw [apcPop_fst_eq_fallback s.openPages (s.history.erase cur) (hnd.erase cur)]
  · intro orc v s action s' obs r d tr hstep
    unfold step at hstep
    split at hstep
    · exact absurd hstep (by simp)
    · simp only [Except.ok.injEq, Prod.mk.injEq] at hstep
      obtain ⟨h1, h2, h3, h4, h5⟩ := hstep
      rw [← h2, extractObservation_pages]
      split
      · exact activePageCheck_pages_ne_nil _
      · exact activePageCheck_pages_ne_nil _

/-- Witness for C3: a concrete state with every page closed gets a fresh
blank page, and a concrete state whose active page closed falls back to
the most recent open history entry. -/
theorem env_never_exposes_zero_tabs_witness :
    ((activePageCheck ⟨some 1, true, [], "", "", [], [], 7⟩).page = some 7 ∧
      (activePageCheck ⟨some 1, true, [], "", "", [], [], 7⟩).openPages = [7]) ∧
    (activePageCheck ⟨some 5, true, [], "", "", [1, 2], [1, 5, 2], 9⟩).page =
      some (fallbackPage [1, 2] ([1, 5, 2].erase 5)) :=
  ⟨env_never_exposes_zero_tabs.2.1 ⟨some 1, true, [], "", "", [], [], 7⟩ rfl,
   env_never_exposes_zero_tabs.2.2.1 ⟨some 5, true, [], "", "", [1, 2], [1, 5, 2], 9⟩ 5
     rfl (by decide) (by decide) (by decide)⟩

/-! ### Claim C8 (amended characterization) -/

/-- A list is a prefix of itself followed by anything. -/
theorem isPrefixOf_append_self (l t : List Char) : (l.isPrefixOf (l ++ t)) = true := by
  rw [List.isPrefixOf_iff_prefix]
  exact List.prefix_append l t

/-- `takeWhile (· ≠ sep)` keeps a separator-free list whole. -/
theorem takeWhile_ne_all (sep : Char) (l : List Char) (h : sep ∉ l) :
    l.takeWhile (fun c => c ≠ sep) = l := by
  induction l with
  | nil => rfl
  | cons c t ih =>
    have hc : ¬c = sep := fun hcc => h (by simp [hcc])
    rw [List.takeWhile_cons, if_pos (by simp [hc])]
    rw [ih (fun hm => h (List.mem_cons_of_mem _ hm))]

/-- `takeWhile (· ≠ sep)` stops exactly at the first separator. -/
theorem takeWhile_ne_append (sep : Char) (a b : List Char) (h : sep ∉ a) :
    (a ++ sep :: b).takeWhile (fun c => c ≠ sep) = a := by
  induction a with
  | nil => simp [List.takeWhile_cons]
  | cons c t ih =>
    have hc : ¬c = sep := fun hcc => h (by simp [hcc])
    rw [List.cons_append, List.takeWhile_cons, if_pos (by simp [hc])]
    rw [ih (fun hm => h (List.mem_cons_of_mem _ hm))]

/-- `dropWhile (· ≠ sep)` drops up to the first separator. -/
theorem dropWhile_ne_append (sep : Char) (a b : List Char) (h : sep ∉ a) :
    (a ++ sep :: b).dropWhile (fun c => c ≠ sep) = sep :: b := by
  induction a with
  | nil => simp [List.dropWhile_cons]
  | cons c t ih =>
    have hc : ¬c = sep := fun hcc => h (by simp [hcc])
    rw [List.cons_append, List.dropWhile_cons, if_pos (by simp [hc])]
    exact ih (fun hm => h (List.mem_cons_of_mem _ hm))

/-- JavaScript `split(sep, 2)[1]` on `a ++ sep :: b` with `sep ∉ a` reads
the next segment of `b`. -/
theorem segAfterFirst_append (sep : Char) (a b : List Char) (h : sep ∉ a) :
    segAfterFirst sep (a ++ sep :: b) = b.takeWhile (fun c => c ≠ sep) := by
  unfold segAfterFirst
  rw [dropWhile_ne_append sep a b h]
  simp

/-- Assembling `<version>.<name>` at the string level. -/
theorem string_mk_dot (v name : String) :
    v ++ "." ++ name = ⟨v.data ++ '.' :: name.data⟩ := by
  have hd : (v ++ "." ++ name).data = v.data ++ '.' :: name.data := by
    rw [String.data_append, String.data_append]
    rw [show ("." : String).data = ['.'] from rfl]
    simp
  calc v ++ "." ++ name = ⟨(v ++ "." ++ name).data⟩ := rfl
    _ = ⟨v.data ++ '.' :: name.data⟩ := by rw [hd]

/-- Stripping the `webclones.` prefix keeps only the next dot-free
segment of the remainder. -/
theorem stripWebclones_hit (rest : List Char) :
    stripWebclones ("webclones.".data ++ rest) =
      rest.takeWhile (fun c => c ≠ '.') := by
  unfold stripWebclones
  rw [if_pos (isPrefixOf_append_self _ _)]
  rw [show ("webclones." : String).data ++ rest = "webclones".data ++ '.' :: rest from by
    rw [show ("webclones." : String).data = "webclones".data ++ ['.'] from rfl]; simp]
  exact segAfterFirst_append '.' _ _ (by decide)

/-- A reference not starting with `webclones.` passes through. -/
theorem stripWebclones_miss (l : List Char)
    (h : "webclones.".data.isPrefixOf l = false) : stripWebclones l = l := by
  unfold stripWebclones
  rw [h]
  simp

/-- Stripping the `browsergym/` prefix keeps only the next slash-free
segment of the remainder. -/
theorem stripBrowsergym_hit (rest : List Char) :
    stripBrowsergym ("browsergym/".data ++ rest) =
      rest.takeWhile (fun c => c ≠ '/') := by
  unfold stripBrowsergym
  rw [if_pos (isPrefixOf_append_self _ _)]
  rw [show ("browsergym/" : String).data ++ rest = "browsergym".data ++ '/' :: rest from by
    rw [show ("browsergym/" : String).data = "browsergym".data ++ ['/'] from rfl]; simp]
  exact segAfterFirst_append '/' _ _ (by decide)

/-- A reference not starting with `browsergym/` passes through. -/
theorem stripBrowsergym_miss (l : List Char)
    (h : "browsergym/".data.isPrefixOf l = false) : stripBrowsergym l = l := by
  unfold stripBrowsergym
  rw [h]
  simp

/-- C8 amended: `canonicalizeTaskName` returns `<version>.<name>` ids,
but the legacy `webclones.` prefix keeps only the first dot-separated
segment of the remainder (so a version inside a `webclones.`-prefixed
reference is NOT preserved — it becomes the name and the default version
is prepended), while the `browsergym/` prefix preserves the remainder's
version and name.  In detail: (a) a whitespace-only reference is
rejected; (b) a bare dot-free name gets the default version; (c)
`webclones.<name>` with a dot-free name keeps the name and gets the
default version; (d) `webclones.<ver>.<rest>` canonicalizes to
`<default>.<ver>`, dropping `<rest>`; (e) `browsergym/<ver>.<name>`
preserves `<ver>.<name>`. -/
theorem canonicalizeTaskName_behavior :
    (∀ v sref : String, trimL sref.data = [] →
        canonicalizeTaskName v sref = .error "Task name cannot be empty") ∧
    (∀ v name : String, trimL name.data = name.data → name.data ≠ [] →
        "webclones.".data.isPrefixOf name.data = false →
        "browsergym/".data.isPrefixOf name.data = false →
        '.' ∉ name.data →
        canonicalizeTaskName v name = .ok (v ++ "." ++ name)) ∧
    (∀ v name : String,
        trimL ("webclones." ++ name).data = ("webclones." ++ name).data →
        "browsergym/".data.isPrefixOf name.data = false →
        '.' ∉ name.data →
        canonicalizeTaskName v ("webclones." ++ name) = .ok (v ++ "." ++ name)) ∧
    (∀ v ver rest : String,
        trimL ("webclones." ++ ver ++ "." ++ rest).data =
          ("webclones." ++ ver ++ "." ++ rest).data →
        "browsergym/".data.isPrefixOf ver.data = false →
        '.' ∉ ver.data →
        canonicalizeTaskName v ("webclones." ++ ver ++ "." ++ rest) =
          .ok (v ++ "." ++ ver)) ∧
    (∀ v ver name : String,
        trimL ("browsergym/" ++ ver ++ "." ++ name).data =
          ("browsergym/" ++ ver ++ "." ++ name).data →
        '/' ∉ ver.data → '/' ∉ name.data → '.' ∉ ver.data → '.' ∉ name.data →
        canonicalizeTaskName v ("browsergym/" ++ ver ++ "." ++ name) =
          .ok (ver ++ "." ++ name)) := by
  refine ⟨fun v sref htrim => ?_, fun v name htrim hne hw hb hdot => ?_,
    fun v name htrim hb hdot => ?_, fun v ver rest htrim hb hdot => ?_,
    fun v ver name htrim hv1 hv2 hd1 hd2 => ?_⟩
  · unfold canonicalizeTaskName
    rw [htrim, if_pos rfl]
  · unfold canonicalizeTaskName
    rw [htrim, if_neg hne, stripWebclones_miss _ hw, stripBrowsergym_miss _ hb,
      if_neg hdot, string_mk_dot]
  · have hdata : ("webclones." ++ name).data = "webclones.".data ++ name.data :=
      String.data_append _ _
    have hne2 : ("webclones." ++ name).data ≠ [] := by rw [hdata]; simp
    unfold canonicalizeTaskName
    rw [htrim, if_neg hne2, hdata, stripWebclones_hit,
      takeWhile_ne_all '.' name.data hdot, stripBrowsergym_miss _ hb, if_neg hdot,
      string_mk_dot]
  · have hdata : ("webclones." ++ ver ++ "." ++ rest).data =
        "webclones.".data ++ (ver.data ++ '.' :: rest.data) := by
      rw [String.data_append, String.data_append, String.data_append]
      rw [show ("." : String).data = ['.'] from rfl]
      simp
    have hne2 : ("webclones." ++ ver ++ "." ++ rest).data ≠ [] := by rw [hdata]; simp
    unfold canonicalizeTaskName
    rw [htrim, if_neg hne2, hdata, stripWebclones_hit,
      takeWhile_ne_append '.' ver.data rest.data hdot, stripBrowsergym_miss _ hb,
      if_neg hdot, string_mk_dot]
  · have hdata : ("browsergym/" ++ ver ++ "." ++ name).data =
        "browsergym/".data ++ (ver.data ++ '.' :: name.data) := by
      rw [String.data_append, String.data_append, String.data_append]
      rw [show ("." : String).data = ['.'] from rfl]
      simp
    have hne2 : ("browsergym/" ++ ver ++ "." ++ name).data ≠ [] := by rw [hdata]; simp
    have hwmiss : "webclones.".data.isPrefixOf
        ("browsergym/".data ++ (ver.data ++ '.' :: name.data)) = false := by
      cases hcl : "webclones.".data.isPrefixOf
          ("browsergym/".data ++ (ver.data ++ '.' :: name.data)) with
      | false => rfl
      | true =>
        have hp := List.isPrefixOf_iff_prefix.mp hcl
        rw [show "webclones.".data = 'w' :: "ebclones.".data from rfl] at hp
        rw [show ("browsergym/".data ++ (ver.data ++ '.' :: name.data))
            = 'b' :: ("rowsergym/".data ++ (ver.data ++ '.' :: name.data)) from by simp] at hp
        exact absurd (List.cons_prefix_cons.mp hp).1 (by decide)
    have hslash : '/' ∉ ver.data ++ '.' :: name.data := by
      intro hm
      rcases List.mem_append.mp hm with hm1 | hm1
      · exact hv1 hm1
      · rcases List.mem_cons.mp hm1 with hm2 | hm2
        · exact absurd hm2 (by decide)
        · exact hv2 hm2
    unfold canonicalizeTaskName
    rw [htrim, if_neg hne2, hdata, stripWebclones_miss _ hwmiss, stripBrowsergym_hit,
      takeWhile_ne_all '/' _ hslash]
    rw [if_pos (by simp : '.' ∈ ver.data ++ '.' :: name.data)]
    unfold segBeforeFirst
    rw [takeWhile_ne_append '.' ver.data name.data hd1,
      segAfterFirst_append '.' ver.data name.data hd1,
      takeWhile_ne_all '.' name.data hd2, string_mk_dot]

/-- Witness for C8 (amended) at concrete references: a bare name, a
`webclones.`-prefixed name, the version-dropping `webclones.` case, and
a version-preserving `browsergym/` reference. -/
theorem canonicalizeTaskName_behavior_witness :
    canonicalizeTaskName "v2" "   " = .error "Task name cannot be empty" ∧
    canonicalizeTaskName "v2" "omnizon-1" = .ok ("v2" ++ "." ++ "omnizon-1") ∧
    canonicalizeTaskName "v2" ("webclones." ++ "omnizon-1") =
      .ok ("v2" ++ "." ++ "omnizon-1") ∧
    canonicalizeTaskName "v2" ("webclones." ++ "v1" ++ "." ++ "omnizon-1") =
      .ok ("v2" ++ "." ++ "v1") ∧
    canonicalizeTaskName "v2" ("browsergym/" ++ "v1" ++ "." ++ "omnizon-1") =
      .ok ("v1" ++ "." ++ "omnizon-1") :=
  ⟨canonicalizeTaskName_behavior.1 "v2" "   " rfl,
   canonicalizeTaskName_behavior.2.1 "v2" "omnizon-1" rfl (by decide) (by decide)
     (by decide) (by decide),
   canonicalizeTaskName_behavior.2.2.1 "v2" "omnizon-1" rfl (by decide) (by decide),
   canonicalizeTaskName_behavior.2.2.2.1 "v2" "v1" "omnizon-1" rfl (by decide) (by decide),
   canonicalizeTaskName_behavior.2.2.2.2 "v2" "v1" "omnizon-1" rfl (by decide) (by decide)
     (by decide) (by decide)⟩
